import Mathlib

/-!
Verification of the Nelson-rules QC dashboard (frontend `App.js` and the
Node backend) against its natural-language specification.

The numeric model: the rule engine and the sample-editing operations use
exact rationals (`ℚ`) for measurement values — the JavaScript code applies
only field arithmetic and order comparisons there, which are exact in this
range of use.  The statistics computer (`calcStats`), whose specified
behaviour involves `NaN` and division by zero, is modelled over an
IEEE-style extension of the reals with `NaN` and signed infinities.
-/

namespace NelsonQC

/-- JavaScript `data.slice(a, b)` for the in-range, non-negative indices the
rule engine uses: the elements at positions `a, a+1, …, b-1`. -/
def jsSlice (data : List ℚ) (a b : ℕ) : List ℚ :=
  (data.drop a).take (b - a)

/-- `slice.every((v, j) => j === 0 || v > slice[j-1])` — each element is
strictly greater than its predecessor (Rule 3, increasing branch). -/
def strictIncr : List ℚ → Bool
  | a :: b :: rest => decide (a < b) && strictIncr (b :: rest)
  | _ => true

/-- `slice.every((v, j) => j === 0 || v < slice[j-1])` — each element is
strictly smaller than its predecessor (Rule 3, decreasing branch). -/
def strictDecr : List ℚ → Bool
  | a :: b :: rest => decide (b < a) && strictDecr (b :: rest)
  | _ => true

/-- The Rule 4 inner loop: for every `j ≥ 2` in the slice,
`(slice[j] - slice[j-1]) * (slice[j-1] - slice[j-2]) < 0`; the loop sets
`alternating = false` as soon as the product is `≥ 0`. -/
def alternating : List ℚ → Bool
  | a :: b :: c :: rest => decide ((c - b) * (b - a) < 0) && alternating (b :: c :: rest)
  | _ => true

/-- Rule 1 condition at index `i`: `Math.abs(val - mean) > 3 * sd`. -/
def rule1Cond (data : List ℚ) (mean sd : ℚ) (i : ℕ) : Bool :=
  decide (3 * sd < |data.getD i 0 - mean|)

/-- Rule 2 condition at index `i`: the 9-point slice `data.slice(i-8, i+1)`
lies entirely above or entirely below the mean. -/
def rule2Cond (data : List ℚ) (mean : ℚ) (i : ℕ) : Bool :=
  let s := jsSlice data (i - 8) (i + 1)
  s.all (fun v => decide (mean < v)) || s.all (fun v => decide (v < mean))

/-- Rule 3 condition at index `i`: the 6-point slice `data.slice(i-5, i+1)`
is strictly increasing or strictly decreasing. -/
def rule3Cond (data : List ℚ) (i : ℕ) : Bool :=
  let s := jsSlice data (i - 5) (i + 1)
  strictIncr s || strictDecr s

/-- Rule 4 condition at index `i`: the 14-point slice `data.slice(i-13, i+1)`
alternates direction at every step. -/
def rule4Cond (data : List ℚ) (i : ℕ) : Bool :=
  alternating (jsSlice data (i - 13) (i + 1))

/-- Rule 5 condition at index `i`: at least 2 of the 3-point slice
`data.slice(i-2, i+1)` satisfy `Math.abs(v - mean) > 2 * sd`. -/
def rule5Cond (data : List ℚ) (mean sd : ℚ) (i : ℕ) : Bool :=
  decide (2 ≤ (jsSlice data (i - 2) (i + 1)).countP (fun v => decide (2 * sd < |v - mean|)))

/-- Rule 6 condition at index `i`: at least 4 of the 5-point slice
`data.slice(i-4, i+1)` satisfy `Math.abs(v - mean) > sd`. -/
def rule6Cond (data : List ℚ) (mean sd : ℚ) (i : ℕ) : Bool :=
  decide (4 ≤ (jsSlice data (i - 4) (i + 1)).countP (fun v => decide (sd < |v - mean|)))

/-- Rule 7 condition at index `i`: every point of the 15-point slice
`data.slice(i-14, i+1)` satisfies `Math.abs(v - mean) < sd`. -/
def rule7Cond (data : List ℚ) (mean sd : ℚ) (i : ℕ) : Bool :=
  (jsSlice data (i - 14) (i + 1)).all (fun v => decide (|v - mean| < sd))

/-- Rule 8 condition at index `i`: every point of the 8-point slice
`data.slice(i-7, i+1)` satisfies `Math.abs(v - mean) > sd`. -/
def rule8Cond (data : List ℚ) (mean sd : ℚ) (i : ℕ) : Bool :=
  (jsSlice data (i - 7) (i + 1)).all (fun v => decide (sd < |v - mean|))

/-- Whether the pass for rule `r` in `checkNelsonRules` pushes `r` onto
`violations[i]`.  Each conjunct `decide (… ≤ i)` is the lower bound of the
corresponding `for` loop (`for (let i = 8; …)` etc.); Rule 4 additionally
carries the enclosing `if (data.length >= 14)` guard; Rule 1 is an
unguarded `forEach`. -/
def ruleFlag (data : List ℚ) (mean sd : ℚ) (i : ℕ) : ℕ → Bool
  | 1 => rule1Cond data mean sd i
  | 2 => decide (8 ≤ i) && rule2Cond data mean i
  | 3 => decide (5 ≤ i) && rule3Cond data i
  | 4 => decide (14 ≤ data.length) && decide (13 ≤ i) && rule4Cond data i
  | 5 => decide (2 ≤ i) && rule5Cond data mean sd i
  | 6 => decide (4 ≤ i) && rule6Cond data mean sd i
  | 7 => decide (14 ≤ i) && rule7Cond data mean sd i
  | 8 => decide (7 ≤ i) && rule8Cond data mean sd i
  | _ => false

/-- `checkNelsonRules(data, mean, sd)`: one violation list per input index.
The source initialises `violations` to `data.length` empty arrays and runs
the eight rule passes in ascending rule order, each pushing its rule number
at indices where its condition holds; hence `violations[i]` is exactly the
ascending list of rule numbers whose flag holds at `i`. -/
def checkNelsonRules (data : List ℚ) (mean sd : ℚ) : List (List ℕ) :=
  (List.range data.length).map
    (fun i => ([1, 2, 3, 4, 5, 6, 7, 8] : List ℕ).filter (ruleFlag data mean sd i))

/-- The spec's minimum-window table: rules 1–8 need 1, 9, 6, 14, 3, 5, 15, 8
points respectively (inclusive of the current point). -/
def minWindow : ℕ → ℕ
  | 1 => 1
  | 2 => 9
  | 3 => 6
  | 4 => 14
  | 5 => 3
  | 6 => 5
  | 7 => 15
  | 8 => 8
  | _ => 0

example : checkNelsonRules [0] 0 0 = [[]] := by with_unfolding_all decide
example : checkNelsonRules [1, 2, 3, 4, 5, 6, 7, 8, 9] 100 1 =
    [[1], [1], [1, 5], [1, 5], [1, 5, 6], [1, 3, 5, 6], [1, 3, 5, 6], [1, 3, 5, 6, 8],
      [1, 2, 3, 5, 6, 8]] := by with_unfolding_all decide
example : checkNelsonRules [1, 5, 1, 5, 1, 5, 1, 5, 1, 5, 1, 5, 1, 5] 3 2 =
    [[], [], [], [], [], [], [], [], [], [], [], [], [], [4]] := by with_unfolding_all decide

lemma checkNelsonRules_length (data : List ℚ) (mean sd : ℚ) :
    (checkNelsonRules data mean sd).length = data.length := by
  simp [checkNelsonRules]

lemma checkNelsonRules_getD {data : List ℚ} {mean sd : ℚ} {i : ℕ} (h : i < data.length) :
    (checkNelsonRules data mean sd).getD i [] =
      ([1, 2, 3, 4, 5, 6, 7, 8] : List ℕ).filter (ruleFlag data mean sd i) := by
  have hlen : i < (checkNelsonRules data mean sd).length := by
    simpa [checkNelsonRules] using h
  rw [List.getD_eq_getElem _ _ hlen]
  simp [checkNelsonRules]

lemma checkNelsonRules_getD_oob {data : List ℚ} {mean sd : ℚ} {i : ℕ}
    (h : data.length ≤ i) :
    (checkNelsonRules data mean sd).getD i [] = [] := by
  apply List.getD_eq_default
  simpa [checkNelsonRules] using h

lemma mem_checkNelsonRules_iff {data : List ℚ} {mean sd : ℚ} {i r : ℕ}
    (h : i < data.length) :
    r ∈ (checkNelsonRules data mean sd).getD i [] ↔
      r ∈ ([1, 2, 3, 4, 5, 6, 7, 8] : List ℕ) ∧ ruleFlag data mean sd i r = true := by
  rw [checkNelsonRules_getD h, List.mem_filter]

/-- **C6.** Rule 1: for every value sequence, mean and stdDev, every index `i`
of the series is flagged by rule 1 if and only if `|value[i] - mean| > 3*stdDev`;
the comparison is strictly greater, so a point exactly at the 3-sigma threshold
is not flagged; the rule has minimum window 1, so every index from the start of
the series (including `i = 0`) is eligible. -/
theorem rule1_characterization (data : List ℚ) (mean sd : ℚ) (i : ℕ)
    (h : i < data.length) :
    (1 ∈ (checkNelsonRules data mean sd).getD i [] ↔ 3 * sd < |data.getD i 0 - mean|)
    ∧ (|data.getD i 0 - mean| = 3 * sd → 1 ∉ (checkNelsonRules data mean sd).getD i []) := by
  have hiff : 1 ∈ (checkNelsonRules data mean sd).getD i [] ↔
      3 * sd < |data.getD i 0 - mean| := by
    rw [mem_checkNelsonRules_iff h]
    simp [ruleFlag, rule1Cond]
  refine ⟨hiff, fun heq hmem => ?_⟩
  exact absurd (hiff.mp hmem) (by rw [heq]; exact lt_irrefl _)

/-- Witness for C6: in the series `[100]` with mean 0 and stdDev 1, index 0
(eligible from the very start) is flagged by rule 1 since `|100 - 0| > 3`. -/
theorem rule1_characterization_witness :
    1 ∈ (checkNelsonRules [100] 0 1).getD 0 [] := by
  have h := rule1_characterization [100] 0 1 0 (by decide)
  exact h.1.mpr (by with_unfolding_all decide)

/-- **C7.** Window minimums: for every value sequence, mean and stdDev, and for
each rule `r ∈ 1..8` with minimum window size `w(r) = 1, 9, 6, 14, 3, 5, 15, 8`
respectively, no index `i < w(r) - 1` ever has rule `r` in its violation set. -/
theorem window_minimums (data : List ℚ) (mean sd : ℚ) (r i : ℕ)
    (h1 : 1 ≤ r) (h2 : r ≤ 8) (h3 : i < minWindow r - 1) :
    r ∉ (checkNelsonRules data mean sd).getD i [] := by
  intro hmem
  rcases lt_or_le i data.length with hlt | hle
  · rw [mem_checkNelsonRules_iff hlt] at hmem
    have hflag := hmem.2
    interval_cases r <;> simp [ruleFlag, minWindow] at hflag h3 <;> omega
  · rw [checkNelsonRules_getD_oob hle] at hmem
    exact absurd hmem (List.not_mem_nil _)

/-- Witness for C7: rule 2 (window 9) is not present at index 0 of `[1, 2, 3]`. -/
theorem window_minimums_witness :
    2 ∉ (checkNelsonRules [1, 2, 3] 0 0).getD 0 [] :=
  window_minimums [1, 2, 3] 0 0 2 0 (by decide) (by decide) (by decide)

/-- **C9.** Output shape of the rule engine: for every value sequence, mean and
stdDev, `checkNelsonRules` returns exactly one violation list per input value
(same length, and by construction the entry at position `i` is the violation
set of input index `i`), and every violation list contains only rule numbers
from 1 to 8, each at most once, in strictly ascending order. -/
theorem evaluate_shape (data : List ℚ) (mean sd : ℚ) :
    (checkNelsonRules data mean sd).length = data.length
    ∧ ∀ l ∈ checkNelsonRules data mean sd,
        l.Sorted (· < ·) ∧ l.Nodup ∧ ∀ r ∈ l, 1 ≤ r ∧ r ≤ 8 := by
  refine ⟨checkNelsonRules_length data mean sd, ?_⟩
  intro l hl
  simp only [checkNelsonRules, List.mem_map] at hl
  obtain ⟨i, -, rfl⟩ := hl
  have hsorted : (([1, 2, 3, 4, 5, 6, 7, 8] : List ℕ).filter
      (ruleFlag data mean sd i)).Sorted (· < ·) :=
    List.Pairwise.filter _ (by decide)
  refine ⟨hsorted, hsorted.nodup, fun r hr => ?_⟩
  have hr8 : r ∈ ([1, 2, 3, 4, 5, 6, 7, 8] : List ℕ) := List.mem_of_mem_filter hr
  fin_cases hr8 <;> omega

/-- Witness for C9: on the one-point series `[0]` (mean 0, stdDev 0) the engine
returns exactly one violation list, and that list (the empty one) is sorted,
duplicate-free and within 1..8. -/
theorem evaluate_shape_witness :
    (checkNelsonRules [0] 0 0).length = 1
    ∧ (([] : List ℕ).Sorted (· < ·) ∧ ([] : List ℕ).Nodup ∧
        ∀ r ∈ ([] : List ℕ), 1 ≤ r ∧ r ≤ 8) := by
  have h := evaluate_shape [0] 0 0
  exact ⟨h.1, h.2 [] (by with_unfolding_all decide)⟩

/-- The spec's wording of the Rule 4 pattern, stated over a window `l`: at
every position `j ≥ 2` the sign of the successive difference
`l[j] - l[j-1]` is strictly opposite to the sign of the previous difference
`l[j-1] - l[j-2]` (so a tie — two equal consecutive values, difference 0 —
breaks the alternating pattern). -/
def specAlternates (l : List ℚ) : Prop :=
  ∀ j < l.length, 2 ≤ j →
    (l.getD j 0 - l.getD (j - 1) 0 < 0 ∧ 0 < l.getD (j - 1) 0 - l.getD (j - 2) 0) ∨
    (0 < l.getD j 0 - l.getD (j - 1) 0 ∧ l.getD (j - 1) 0 - l.getD (j - 2) 0 < 0)

instance (l : List ℚ) : Decidable (specAlternates l) := by
  unfold specAlternates; infer_instance

lemma alternating_cons_iff (t : List ℚ) : ∀ a b : ℚ,
    alternating (a :: b :: t) = true ↔
      ∀ j < (a :: b :: t).length, 2 ≤ j →
        ((a :: b :: t).getD j 0 - (a :: b :: t).getD (j - 1) 0) *
          ((a :: b :: t).getD (j - 1) 0 - (a :: b :: t).getD (j - 2) 0) < 0 := by
  induction t with
  | nil =>
      intro a b
      simp only [alternating, List.length_cons, List.length_nil]
      constructor
      · intro _ j hj h2; omega
      · intro _; trivial
  | cons c t ih =>
      intro a b
      rw [alternating, Bool.and_eq_true, decide_eq_true_iff, ih b c]
      constructor
      · rintro ⟨hhead, htail⟩ j hj h2
        rcases Nat.lt_or_ge j 3 with h3 | h3
        · have hj2 : j = 2 := by omega
          subst hj2
          simpa using hhead
        · obtain ⟨k, rfl⟩ : ∃ k, j = k + 3 := ⟨j - 3, by omega⟩
          have := htail (k + 2) (by simpa using hj) (by omega)
          simpa using this
      · intro h
        refine ⟨?_, fun j hj h2 => ?_⟩
        · simpa using h 2 (by simp) (le_refl 2)
        · obtain ⟨k, rfl⟩ : ∃ k, j = k + 2 := ⟨j - 2, by omega⟩
          have := h (k + 3) (by simpa using hj) (by omega)
          simpa using this

lemma alternating_iff_prod (l : List ℚ) :
    alternating l = true ↔
      ∀ j < l.length, 2 ≤ j →
        (l.getD j 0 - l.getD (j - 1) 0) * (l.getD (j - 1) 0 - l.getD (j - 2) 0) < 0 := by
  match l with
  | [] =>
      simp only [alternating, List.length_nil]
      exact ⟨fun _ j hj h2 => by omega, fun _ => trivial⟩
  | [a] =>
      simp only [alternating, List.length_cons, List.length_nil]
      exact ⟨fun _ j hj h2 => by omega, fun _ => trivial⟩
  | a :: b :: t => exact alternating_cons_iff t a b

lemma specAlternates_iff_prod (l : List ℚ) :
    specAlternates l ↔
      ∀ j < l.length, 2 ≤ j →
        (l.getD j 0 - l.getD (j - 1) 0) * (l.getD (j - 1) 0 - l.getD (j - 2) 0) < 0 := by
  unfold specAlternates
  refine forall_congr' fun j => imp_congr_right fun hj => imp_congr_right fun h2 => ?_
  rw [mul_neg_iff]
  tauto

/-- **C5.** Rule 4: for every value sequence, mean and stdDev, an index
`i ≥ 13` of the series is flagged by rule 4 if and only if in the 14-point
window `data.slice(i-13, i+1)` ending at `i` the sign of each successive
difference is strictly opposite to the sign of the previous difference (a tie,
i.e. two equal consecutive values, breaks the pattern); and no index before
the 14th point (`i < 13`) is ever flagged by rule 4. -/
theorem rule4_characterization (data : List ℚ) (mean sd : ℚ) (i : ℕ) :
    (13 ≤ i → i < data.length →
      (4 ∈ (checkNelsonRules data mean sd).getD i [] ↔
        specAlternates (jsSlice data (i - 13) (i + 1))))
    ∧ (i < 13 → 4 ∉ (checkNelsonRules data mean sd).getD i []) := by
  constructor
  · intro h13 hlen
    have h14 : 14 ≤ data.length := by omega
    rw [mem_checkNelsonRules_iff hlen]
    simp only [ruleFlag, rule4Cond, Bool.and_eq_true, decide_eq_true_iff]
    rw [alternating_iff_prod, ← specAlternates_iff_prod]
    constructor
    · exact fun h => h.2.2
    · exact fun h => ⟨by decide, ⟨h14, h13⟩, h⟩
  · intro hlt hmem
    rcases lt_or_le i data.length with hl | hle
    · rw [mem_checkNelsonRules_iff hl] at hmem
      have := hmem.2
      simp only [ruleFlag, Bool.and_eq_true, decide_eq_true_iff] at this
      omega
    · rw [checkNelsonRules_getD_oob hle] at hmem
      exact absurd hmem (List.not_mem_nil _)

/-- Witness for C5: the 14-point strictly alternating series
`[1,5,1,5,1,5,1,5,1,5,1,5,1,5]` has its last index (13) flagged with rule 4,
and index 0 is never flagged by rule 4. -/
theorem rule4_characterization_witness :
    4 ∈ (checkNelsonRules [1, 5, 1, 5, 1, 5, 1, 5, 1, 5, 1, 5, 1, 5] 3 2).getD 13 []
    ∧ 4 ∉ (checkNelsonRules [1, 5, 1, 5, 1, 5, 1, 5, 1, 5, 1, 5, 1, 5] 3 2).getD 0 [] := by
  have h := rule4_characterization [1, 5, 1, 5, 1, 5, 1, 5, 1, 5, 1, 5, 1, 5] 3 2 13
  have h0 := rule4_characterization [1, 5, 1, 5, 1, 5, 1, 5, 1, 5, 1, 5, 1, 5] 3 2 0
  exact ⟨(h.1 (by decide) (by decide)).mpr (by with_unfolding_all decide),
    h0.2 (by decide)⟩

/-- A sample row of the frontend state: `{ id, weight, hardness }`. -/
structure FSample where
  id : ℚ
  weight : ℚ
  hardness : ℚ
  deriving DecidableEq, Inhabited

/-- The mutable field name passed to `updateSample` (the callers pass
`'weight'` or `'hardness'`). -/
inductive Field where
  | weight
  | hardness
  deriving DecidableEq

/-- `{ ...s, [field]: x }` — replace the named field, keep the rest. -/
def setField (s : FSample) : Field → ℚ → FSample
  | .weight, x => { s with weight := x }
  | .hardness, x => { s with hardness := x }

/-- `parseFloat(value) || 0`: the argument models the result of
`parseFloat` (`none` for `NaN`, i.e. an empty or unparseable string); both
`NaN` and `0` are falsy, so either falls back to `0`. -/
def jsOrZero : Option ℚ → ℚ
  | none => 0
  | some q => if q = 0 then 0 else q

/-- `updateSample(id, field, value)`:
`samples.map(s => s.id === id ? { ...s, [field]: parseFloat(value) || 0 } : s)`. -/
def updateSample (samples : List FSample) (id : ℚ) (f : Field) (v : Option ℚ) :
    List FSample :=
  samples.map (fun s => if s.id = id then setField s f (jsOrZero v) else s)

/-- `deleteSample(id)`: `samples.filter(s => s.id !== id)`. -/
def deleteSample (samples : List FSample) (id : ℚ) : List FSample :=
  samples.filter (fun s => s.id != id)

lemma count_deleteSample (samples : List FSample) (id : ℚ) (s : FSample) :
    (deleteSample samples id).count s =
      if s.id = id then 0 else samples.count s := by
  induction samples with
  | nil => simp [deleteSample]
  | cons a t ih =>
      rw [deleteSample, List.filter_cons]
      by_cases ha : a.id = id <;> by_cases hs : s.id = id
      · have hrec := ih
        rw [deleteSample] at hrec
        simp [ha, hrec, hs]
      · have hsa : ¬(s = a) := fun h => hs (by rw [h, ha])
        have hrec := ih
        rw [deleteSample] at hrec
        simp [ha, hrec, hs, List.count_cons, hsa]
      · have hsa : ¬(s = a) := fun h => ha (by rw [← h, hs])
        have hrec := ih
        rw [deleteSample] at hrec
        simp [ha, hrec, hs, List.count_cons, hsa]
      · have hrec := ih
        rw [deleteSample] at hrec
        simp [ha, hrec, hs, List.count_cons]

/-- **C10.** For every sample list (duplicate ids included) and id:
`updateSample(id, field, value)` keeps the length, rewrites every sample whose
id equals the given id to the same sample with only the named field replaced by
the parsed value (0 for an empty/unparseable value), and leaves every sample
with a different id unchanged; `setField` itself preserves the id and the
other measurement field; and `deleteSample(id)` removes exactly the samples
whose id equals the given id (occurrence counts of all other samples are
preserved). -/
theorem updateSample_deleteSample_frame (samples : List FSample) (id : ℚ)
    (f : Field) (v : Option ℚ) :
    (updateSample samples id f v).length = samples.length
    ∧ (∀ i, i < samples.length →
        ((samples.getD i default).id = id →
          (updateSample samples id f v).getD i default =
            setField (samples.getD i default) f (jsOrZero v))
        ∧ ((samples.getD i default).id ≠ id →
          (updateSample samples id f v).getD i default = samples.getD i default))
    ∧ (∀ (s : FSample) (x : ℚ), (setField s f x).id = s.id)
    ∧ (∀ (s : FSample) (x : ℚ),
        (setField s Field.weight x).weight = x
        ∧ (setField s Field.weight x).hardness = s.hardness
        ∧ (setField s Field.hardness x).hardness = x
        ∧ (setField s Field.hardness x).weight = s.weight)
    ∧ (∀ s ∈ deleteSample samples id, s.id ≠ id)
    ∧ (∀ s : FSample, (deleteSample samples id).count s =
        if s.id = id then 0 else samples.count s) := by
  refine ⟨by simp [updateSample], fun i hi => ?_, fun s x => by cases f <;> rfl,
    fun s x => ⟨rfl, rfl, rfl, rfl⟩, fun s hs => ?_, count_deleteSample samples id⟩
  · have hmap : i < (updateSample samples id f v).length := by
      simpa [updateSample] using hi
    have hget : (updateSample samples id f v).getD i default =
        (if (samples.getD i default).id = id then
          setField (samples.getD i default) f (jsOrZero v) else samples.getD i default) := by
      rw [List.getD_eq_getElem _ _ hmap, List.getD_eq_getElem _ _ hi]
      simp [updateSample]
    constructor
    · intro h
      rw [hget, if_pos h]
    · intro h
      rw [hget, if_neg h]
  · rw [deleteSample, List.mem_filter] at hs
    simpa using hs.2

/-- Witness for C10 on a list with a duplicated id 1: updating field `weight`
of id 1 to 9 keeps the length, rewrites the second duplicate's weight, leaves
the id-2 sample untouched, and deleting id 1 preserves the count of the id-2
sample. -/
theorem updateSample_deleteSample_frame_witness :
    (updateSample [⟨1, 2, 3⟩, ⟨1, 4, 5⟩, ⟨2, 6, 7⟩] 1 Field.weight (some 9)).length = 3
    ∧ (updateSample [⟨1, 2, 3⟩, ⟨1, 4, 5⟩, ⟨2, 6, 7⟩] 1 Field.weight (some 9)).getD 1 default
        = setField (([⟨1, 2, 3⟩, ⟨1, 4, 5⟩, ⟨2, 6, 7⟩] : List FSample).getD 1 default)
            Field.weight (jsOrZero (some 9))
    ∧ (updateSample [⟨1, 2, 3⟩, ⟨1, 4, 5⟩, ⟨2, 6, 7⟩] 1 Field.weight (some 9)).getD 2 default
        = ([⟨1, 2, 3⟩, ⟨1, 4, 5⟩, ⟨2, 6, 7⟩] : List FSample).getD 2 default
    ∧ (deleteSample [⟨1, 2, 3⟩, ⟨1, 4, 5⟩, ⟨2, 6, 7⟩] 1).count ⟨2, 6, 7⟩
        = if (FSample.mk 2 6 7).id = 1 then 0
          else ([⟨1, 2, 3⟩, ⟨1, 4, 5⟩, ⟨2, 6, 7⟩] : List FSample).count ⟨2, 6, 7⟩ := by
  have h := updateSample_deleteSample_frame [⟨1, 2, 3⟩, ⟨1, 4, 5⟩, ⟨2, 6, 7⟩] 1
    Field.weight (some 9)
  refine ⟨by simpa using h.1, ?_, ?_, h.2.2.2.2.2 ⟨2, 6, 7⟩⟩
  · exact (h.2.1 1 (by decide)).1 (by with_unfolding_all decide)
  · exact (h.2.1 2 (by decide)).2 (by with_unfolding_all decide)

/-! ## Backend sync coordinator

The server holds one authoritative `currentData`; the `update-data` socket
handler overwrites it and re-broadcasts with `socket.broadcast.emit`
(every connected client except the sender), while the file-watcher handler
overwrites it and re-broadcasts with `io.emit` (every connected client).
`writeExcelFile` is best-effort persistence (its failure is logged and does
not affect the in-memory state), so it is not modelled further.  The payload
type is a parameter: the handlers never inspect the series they relay. -/

/-- A connected socket, identified by its id. -/
abbrev ClientId := ℕ

/-- The server's single authoritative in-memory series. -/
structure ServerState (α : Type) where
  currentData : α

/-- `socket.on('update-data', newData => { currentData = newData;
writeExcelFile(newData); socket.broadcast.emit('data-update', newData); })`:
returns the new state and the list of emitted `(recipient, payload)`
messages — one per connected client other than the sender. -/
def updateData (_st : ServerState α) (clients : List ClientId) (sender : ClientId)
    (newData : α) : ServerState α × List (ClientId × α) :=
  (⟨newData⟩, (clients.filter (fun c => c != sender)).map (fun c => (c, newData)))

/-- `watcher.on('change', …)`: `currentData = readExcelFile();
io.emit('data-update', newData)` — one message to every connected client,
with no sender exclusion since there is no originating socket. -/
def externalChange (_st : ServerState α) (clients : List ClientId) (newData : α) :
    ServerState α × List (ClientId × α) :=
  (⟨newData⟩, clients.map (fun c => (c, newData)))

/-- **C1.** Last write wins with origin exclusion: after `updateData` with
series `A` from `editor1` and then `updateData` with series `B` from
`editor2`, the authoritative series is `B`; `editor1` receives no message
from its own update (no echo of `A`) but does receive a broadcast carrying
`B` from the second update; `editor2` receives no message from its own
update; and an external file-change update is delivered to every connected
client, with no exclusion. -/
theorem lastWriteWins (α : Type) (s0 : ServerState α) (clients : List ClientId)
    (e1 e2 : ClientId) (A B : α) (h1 : e1 ∈ clients) (h2 : e2 ∈ clients)
    (hne : e1 ≠ e2) :
    (updateData (updateData s0 clients e1 A).1 clients e2 B).1.currentData = B
    ∧ (∀ p, (e1, p) ∉ (updateData s0 clients e1 A).2)
    ∧ (e1, B) ∈ (updateData (updateData s0 clients e1 A).1 clients e2 B).2
    ∧ (∀ p, (e2, p) ∉ (updateData (updateData s0 clients e1 A).1 clients e2 B).2)
    ∧ (∀ (st : ServerState α) (nd : α), ∀ c ∈ clients,
        (c, nd) ∈ (externalChange st clients nd).2) := by
  refine ⟨rfl, fun p hp => ?_, ?_, fun p hp => ?_, fun st nd c hc => ?_⟩
  · simp only [updateData, List.mem_map, List.mem_filter] at hp
    obtain ⟨c, ⟨-, hcne⟩, heq⟩ := hp
    have hc1 : c = e1 := congrArg Prod.fst heq
    subst hc1
    simp at hcne
  · simp only [updateData, List.mem_map, List.mem_filter]
    exact ⟨e1, ⟨h1, by simp [hne]⟩, rfl⟩
  · simp only [updateData, List.mem_map, List.mem_filter] at hp
    obtain ⟨c, ⟨-, hcne⟩, heq⟩ := hp
    have hc2 : c = e2 := congrArg Prod.fst heq
    subst hc2
    simp at hcne
  · simp only [externalChange, List.mem_map]
    exact ⟨c, hc, rfl⟩

/-- Witness for C1 with clients `{1, 2, 3}`, editor 1 sending `[10]` and then
editor 2 sending `[20]`: the final series is `[20]`, editor 1 receives `[20]`,
and editor 2 receives nothing from its own update. -/
theorem lastWriteWins_witness :
    (updateData (updateData (⟨[]⟩ : ServerState (List ℕ)) [1, 2, 3] 1 [10]).1
        [1, 2, 3] 2 [20]).1.currentData = [20]
    ∧ (1, [20]) ∈ (updateData (updateData (⟨[]⟩ : ServerState (List ℕ))
        [1, 2, 3] 1 [10]).1 [1, 2, 3] 2 [20]).2
    ∧ (2, [20]) ∉ (updateData (updateData (⟨[]⟩ : ServerState (List ℕ))
        [1, 2, 3] 1 [10]).1 [1, 2, 3] 2 [20]).2 := by
  have h := lastWriteWins (List ℕ) ⟨[]⟩ [1, 2, 3] 1 2 [10] [20]
    (by decide) (by decide) (by decide)
  exact ⟨h.1, h.2.2.1, h.2.2.2.1 [20]⟩

/-! ## Backend Excel load (`readExcelFile`) -/

/-- A spreadsheet cell as it appears in a `sheet_to_json` row, abstracted by
how JavaScript treats it: a number, a nonempty string that `parseFloat`
parses to `q`, a nonempty string that does not parse (`parseFloat` = `NaN`),
or the empty string. -/
inductive Cell where
  | num (q : ℚ)
  | strNum (q : ℚ)
  | strBad
  | strEmpty
  deriving DecidableEq

/-- JavaScript truthiness of a cell: the number 0 and the empty string are
falsy; every other number and every nonempty string is truthy. -/
def Cell.truthy : Cell → Bool
  | .num q => q != 0
  | .strNum _ => true
  | .strBad => true
  | .strEmpty => false

/-- `a || b` where `a` is a possibly-absent (`undefined`, hence falsy)
property. -/
def jsOr : Option Cell → Cell → Cell
  | some c, d => if c.truthy then c else d
  | none, d => d

/-- `parseFloat(c)`; `none` models `NaN`.  A numeric cell stringifies and
re-parses to its own value; the empty string parses to `NaN`. -/
def parseFloatCell : Cell → Option ℚ
  | .num q => some q
  | .strNum q => some q
  | .strBad => none
  | .strEmpty => none

/-- One row of the first worksheet, as the association of column names to
cells produced by `XLSX.utils.sheet_to_json`. -/
abbrev Row := List (String × Cell)

/-- Property access `row[k]` on a sheet row (`undefined` when absent). -/
def getCol (row : Row) (k : String) : Option Cell :=
  (row.find? (fun p => p.1 == k)).map (fun p => p.2)

/-- One element of `transformedData`:
`{ id: row.id || index + 1, weight: parseFloat(row.weight || row.Weight || 0),
   hardness: parseFloat(row.hardness || row.Hardness || 0) }`,
with `index` 0-based and `none` modelling `NaN` in the parsed fields. -/
structure OutSample where
  id : Cell
  weight : Option ℚ
  hardness : Option ℚ
  deriving DecidableEq

def transformRow (index : ℕ) (row : Row) : OutSample :=
  { id := jsOr (getCol row "id") (Cell.num ((index : ℚ) + 1))
    weight := parseFloatCell (jsOr (getCol row "weight")
      (jsOr (getCol row "Weight") (Cell.num 0)))
    hardness := parseFloatCell (jsOr (getCol row "hardness")
      (jsOr (getCol row "Hardness") (Cell.num 0))) }

/-- How the startup load attempt can go: the backing file is absent
(`!fs.existsSync`), reading/parsing it threw (the `catch` branch), or the
first worksheet produced these rows. -/
inductive LoadOutcome where
  | missing
  | readError
  | ok (rows : List Row)

/-- The fixed dummy series returned when the file is missing or unreadable. -/
def fallbackData : List OutSample :=
  [⟨Cell.num 1, some 27.2, some 10.1⟩,
   ⟨Cell.num 2, some 26.8, some 9.8⟩,
   ⟨Cell.num 3, some 27.5, some 10.3⟩,
   ⟨Cell.num 4, some 26.5, some 9.5⟩,
   ⟨Cell.num 5, some 27.8, some 10.8⟩]

/-- `readExcelFile()`, as a total function of the persistence outcome: both
failure branches return the dummy data, the success branch maps
`transformRow` over the rows with their 0-based index. -/
def readExcelFile : LoadOutcome → List OutSample
  | .missing => fallbackData
  | .readError => fallbackData
  | .ok rows => rows.enum.map (fun p => transformRow p.1 p.2)

/-- **C2.** The startup load is a total function of the persistence outcome
(it never throws), and on a missing backing file or a failed read it returns
the fixed 5-sample fallback series — ids 1–5, weights 27.2, 26.8, 27.5, 26.5,
27.8 and hardnesses 10.1, 9.8, 10.3, 9.5, 10.8 — identically on every such
cold start. -/
theorem initialize_fallback :
    readExcelFile .missing =
      [⟨Cell.num 1, some 27.2, some 10.1⟩, ⟨Cell.num 2, some 26.8, some 9.8⟩,
       ⟨Cell.num 3, some 27.5, some 10.3⟩, ⟨Cell.num 4, some 26.5, some 9.5⟩,
       ⟨Cell.num 5, some 27.8, some 10.8⟩]
    ∧ readExcelFile .readError = readExcelFile .missing :=
  ⟨rfl, rfl⟩

/-- **C4 (amended).** For every loaded table row: the weight and hardness
columns are matched by trying the exact key `weight` (`hardness`) and then the
capitalized variant `Weight` (`Hardness`) — other casings are not matched; a
missing or empty cell yields the value `0.0`, while a present, nonempty but
unparseable cell yields `NaN`; a nonzero numeric cell is taken from whichever
of the two keys is present; and a row with a missing `id` is assigned the
row's 1-based position in the table as its id. -/
theorem excel_row_defaults (i : ℕ) (row : Row) :
    (getCol row "weight" = none → getCol row "Weight" = none →
      (transformRow i row).weight = some 0)
    ∧ (getCol row "weight" = some Cell.strEmpty → getCol row "Weight" = none →
      (transformRow i row).weight = some 0)
    ∧ (∀ q : ℚ, q ≠ 0 → getCol row "weight" = some (Cell.num q) →
      (transformRow i row).weight = some q)
    ∧ (∀ q : ℚ, q ≠ 0 → getCol row "weight" = none →
      getCol row "Weight" = some (Cell.num q) → (transformRow i row).weight = some q)
    ∧ (getCol row "weight" = some Cell.strBad → (transformRow i row).weight = none)
    ∧ (getCol row "hardness" = none → getCol row "Hardness" = none →
      (transformRow i row).hardness = some 0)
    ∧ (∀ q : ℚ, q ≠ 0 → getCol row "hardness" = none →
      getCol row "Hardness" = some (Cell.num q) → (transformRow i row).hardness = some q)
    ∧ (getCol row "hardness" = some Cell.strBad → (transformRow i row).hardness = none)
    ∧ (getCol row "id" = none → (transformRow i row).id = Cell.num ((i : ℚ) + 1)) := by
  refine ⟨fun h1 h2 => ?_, fun h1 h2 => ?_, fun q hq h1 => ?_, fun q hq h1 h2 => ?_,
    fun h1 => ?_, fun h1 h2 => ?_, fun q hq h1 h2 => ?_, fun h1 => ?_, fun h1 => ?_⟩ <;>
    simp [transformRow, jsOr, Cell.truthy, parseFloatCell, *]

/-- Counterexample to C4 as stated: a present but unparseable weight cell is
transformed to `NaN` (`none`), not `0.0`; and a cell keyed `WEIGHT` is not
matched case-insensitively — its value 5 is ignored and the weight defaults
to 0. -/
theorem excel_row_defaults_counterexample :
    (transformRow 0 [("weight", Cell.strBad)]).weight = none
    ∧ (transformRow 0 [("WEIGHT", Cell.num 5)]).weight = some 0 := by
  constructor <;> with_unfolding_all rfl

/-- Witness for C4 (amended): in the row `{ Weight: 5 }` at 0-based index 2,
the capitalized key is matched, so the weight is 5, and the missing id
defaults to the 1-based position 3. -/
theorem excel_row_defaults_witness :
    (transformRow 2 [("Weight", Cell.num 5)]).weight = some 5
    ∧ (transformRow 2 [("Weight", Cell.num 5)]).id = Cell.num ((2 : ℚ) + 1) := by
  have h := excel_row_defaults 2 [("Weight", Cell.num 5)]
  exact ⟨h.2.2.2.1 5 (by with_unfolding_all decide) (by with_unfolding_all rfl)
      (by with_unfolding_all rfl),
    h.2.2.2.2.2.2.2.2 (by with_unfolding_all rfl)⟩

/-! ## Statistics computer (`calcStats`)

`calcStats` is the one place whose specified behaviour depends on IEEE
special values (`NaN`, signed infinities): the empty-input mean is `0/0`
and the relative standard deviation divides by the mean.  JavaScript
numbers are modelled as exact reals extended with `NaN` and `±Infinity`
(rounding is out of scope — the spec's persisted-state shape is "logical,
not binary-exact" — and negative zero is identified with zero). -/

/-- A JavaScript number: a finite real, `Infinity`, `-Infinity`, or `NaN`. -/
inductive JSVal where
  | fin (x : ℝ)
  | pinf
  | ninf
  | nan

/-- IEEE addition on `JSVal`. -/
noncomputable def jsAdd : JSVal → JSVal → JSVal
  | .nan, _ => .nan
  | _, .nan => .nan
  | .fin a, .fin b => .fin (a + b)
  | .fin _, .pinf => .pinf
  | .pinf, .fin _ => .pinf
  | .fin _, .ninf => .ninf
  | .ninf, .fin _ => .ninf
  | .pinf, .pinf => .pinf
  | .ninf, .ninf => .ninf
  | .pinf, .ninf => .nan
  | .ninf, .pinf => .nan

/-- IEEE subtraction on `JSVal`. -/
noncomputable def jsSub : JSVal → JSVal → JSVal
  | .nan, _ => .nan
  | _, .nan => .nan
  | .fin a, .fin b => .fin (a - b)
  | .fin _, .pinf => .ninf
  | .fin _, .ninf => .pinf
  | .pinf, .fin _ => .pinf
  | .ninf, .fin _ => .ninf
  | .pinf, .pinf => .nan
  | .ninf, .ninf => .nan
  | .pinf, .ninf => .pinf
  | .ninf, .pinf => .ninf

/-- IEEE multiplication on `JSVal` (`0 * ±∞ = NaN`). -/
noncomputable def jsMul : JSVal → JSVal → JSVal
  | .nan, _ => .nan
  | _, .nan => .nan
  | .fin a, .fin b => .fin (a * b)
  | .fin a, .pinf => if a = 0 then .nan else if 0 < a then .pinf else .ninf
  | .pinf, .fin b => if b = 0 then .nan else if 0 < b then .pinf else .ninf
  | .fin a, .ninf => if a = 0 then .nan else if 0 < a then .ninf else .pinf
  | .ninf, .fin b => if b = 0 then .nan else if 0 < b then .ninf else .pinf
  | .pinf, .pinf => .pinf
  | .ninf, .ninf => .pinf
  | .pinf, .ninf => .ninf
  | .ninf, .pinf => .ninf

/-- IEEE division on `JSVal`: `0/0 = NaN`, `x/0 = ±∞` by the sign of `x`,
`x/±∞ = 0`, `±∞/±∞ = NaN`. -/
noncomputable def jsDiv : JSVal → JSVal → JSVal
  | .nan, _ => .nan
  | _, .nan => .nan
  | .fin a, .fin b =>
      if b = 0 then (if a = 0 then .nan else if 0 < a then .pinf else .ninf)
      else .fin (a / b)
  | .fin _, .pinf => .fin 0
  | .fin _, .ninf => .fin 0
  | .pinf, .fin b => if b < 0 then .ninf else .pinf
  | .ninf, .fin b => if b < 0 then .pinf else .ninf
  | .pinf, .pinf => .nan
  | .pinf, .ninf => .nan
  | .ninf, .pinf => .nan
  | .ninf, .ninf => .nan

/-- `Math.sqrt`: `NaN` on negative (and `-Infinity` and `NaN`) input. -/
noncomputable def jsSqrt : JSVal → JSVal
  | .fin a => if a < 0 then .nan else .fin (Real.sqrt a)
  | .pinf => .pinf
  | .ninf => .nan
  | .nan => .nan

/-- The result record of `calcStats`: `{ avg, sd, rsd }`. -/
structure ChannelStatistics where
  avg : JSVal
  sd : JSVal
  rsd : JSVal

/-- `calcStats(arr)`:
`avg = arr.reduce((a, b) => a + b, 0) / arr.length`;
`sd = Math.sqrt(arr.reduce((sum, val) => sum + Math.pow(val - avg, 2), 0) / arr.length)`
(with `Math.pow(x, 2)` the self-product `x * x`);
`rsd = (sd / avg) * 100`. -/
noncomputable def calcStats (arr : List JSVal) : ChannelStatistics :=
  let len : JSVal := .fin (arr.length : ℝ)
  let avg := jsDiv (arr.foldl jsAdd (.fin 0)) len
  let sd := jsSqrt (jsDiv
    (arr.foldl (fun sum val => jsAdd sum (jsMul (jsSub val avg) (jsSub val avg))) (.fin 0)) len)
  let rsd := jsMul (jsDiv sd avg) (.fin 100)
  ⟨avg, sd, rsd⟩

/-- **C8.** Statistics on empty input: `calcStats` applied to the empty value
sequence is a valid call whose result is `{ mean: NaN, stdDev: NaN,
relativeStdDevPercent: NaN }` (the empty sum over length 0 gives `0/0 = NaN`
and the NaN propagates), rather than an error. -/
theorem calcStats_empty : calcStats [] = ⟨JSVal.nan, JSVal.nan, JSVal.nan⟩ := by
  simp [calcStats, jsDiv, jsSqrt, jsMul]

lemma jsMul_jsDiv_hundred (a b : JSVal) :
    jsMul (jsDiv a b) (.fin 100) = jsDiv (jsMul (.fin 100) a) b := by
  cases a <;> cases b
  case fin.fin x y =>
    by_cases hy : y = 0
    · subst hy
      by_cases hx : x = 0
      · subst hx; norm_num [jsDiv, jsMul]
      · rcases Ne.lt_or_lt hx with hneg | hpos
        · have h1 : ¬(0 < x) := by linarith
          have h2 : (100 : ℝ) * x ≠ 0 := mul_ne_zero (by norm_num) hx
          have h3 : ¬(0 < (100 : ℝ) * x) := by nlinarith
          norm_num [jsDiv, jsMul, hx, h1, h2, h3]
        · have h2 : (100 : ℝ) * x ≠ 0 := mul_ne_zero (by norm_num) hx
          have h3 : 0 < (100 : ℝ) * x := by nlinarith
          norm_num [jsDiv, jsMul, hx, hpos, h2, h3]
    · norm_num [jsDiv, jsMul, hy]
      ring
  case fin.pinf x => norm_num [jsDiv, jsMul]
  case fin.ninf x => norm_num [jsDiv, jsMul]
  case fin.nan x => rfl
  case pinf.fin y =>
    by_cases hy : y < 0 <;> norm_num [jsDiv, jsMul, hy]
  case pinf.pinf => norm_num [jsDiv, jsMul]
  case pinf.ninf => norm_num [jsDiv, jsMul]
  case pinf.nan => norm_num [jsDiv, jsMul]
  case ninf.fin y =>
    by_cases hy : y < 0 <;> norm_num [jsDiv, jsMul, hy]
  case ninf.pinf => norm_num [jsDiv, jsMul]
  case ninf.ninf => norm_num [jsDiv, jsMul]
  case ninf.nan => norm_num [jsDiv, jsMul]
  case nan.fin y => rfl
  case nan.pinf => rfl
  case nan.ninf => rfl
  case nan.nan => rfl

/-- **C3 (amended).** For every sequence of values, the computed
`relativeStdDevPercent` equals `100 * stdDev / mean` (in IEEE extended
arithmetic); when the mean is 0, the result is `NaN` if `stdDev` is also 0,
and `+Infinity` if `stdDev` is positive — in every case the computation
propagates the special value rather than throwing. -/
theorem calcStats_rsd (arr : List JSVal) :
    (calcStats arr).rsd = jsDiv (jsMul (.fin 100) (calcStats arr).sd) (calcStats arr).avg
    ∧ ((calcStats arr).avg = .fin 0 →
        ((calcStats arr).sd = .fin 0 → (calcStats arr).rsd = .nan)
        ∧ (∀ x : ℝ, 0 < x → (calcStats arr).sd = .fin x → (calcStats arr).rsd = .pinf)) := by
  have hrsd : (calcStats arr).rsd =
      jsMul (jsDiv (calcStats arr).sd (calcStats arr).avg) (.fin 100) := rfl
  refine ⟨hrsd.trans (jsMul_jsDiv_hundred _ _), fun havg => ⟨fun hsd => ?_, fun x hx hsd => ?_⟩⟩
  · rw [hrsd, havg, hsd]; norm_num [jsDiv, jsMul]
  · rw [hrsd, havg, hsd]
    have hdiv : jsDiv (.fin x) (.fin 0) = .pinf := by norm_num [jsDiv, hx.ne', hx]
    rw [hdiv]; norm_num [jsMul]

/-- Counterexample to C3 as stated: for the value sequence `[1, -1]` the mean
is exactly 0 and the standard deviation is 1, and the computed
`relativeStdDevPercent` is `+Infinity` (`(1/0) * 100`), not `NaN` — so a mean
of 0 does not yield `NaN` for all values of `stdDev`. -/
theorem calcStats_counterexample :
    (calcStats [.fin 1, .fin (-1)]).avg = .fin 0
    ∧ (calcStats [.fin 1, .fin (-1)]).rsd = .pinf := by
  have h : calcStats [.fin 1, .fin (-1)] = ⟨.fin 0, .fin 1, .pinf⟩ := by
    simp only [calcStats, List.foldl_cons, List.foldl_nil, List.length_cons,
      List.length_nil]
    norm_num [jsAdd, jsSub, jsMul, jsDiv, jsSqrt]
  rw [h]
  exact ⟨rfl, rfl⟩

/-- Witness for C3 (amended) at the sequence `[1, -1]` (mean 0, stdDev 1):
the computed rsd equals `100 * stdDev / mean` and is `+Infinity`. -/
theorem calcStats_rsd_witness :
    (calcStats [.fin 1, .fin (-1)]).rsd =
      jsDiv (jsMul (.fin 100) (calcStats [.fin 1, .fin (-1)]).sd)
        (calcStats [.fin 1, .fin (-1)]).avg
    ∧ (calcStats [.fin 1, .fin (-1)]).rsd = .pinf := by
  have h := calcStats_rsd [.fin 1, .fin (-1)]
  have havg : (calcStats [.fin 1, .fin (-1)]).avg = .fin 0 := by
    simp only [calcStats, List.foldl_cons, List.foldl_nil, List.length_cons, List.length_nil]
    norm_num [jsAdd, jsDiv]
  have hsd : (calcStats [.fin 1, .fin (-1)]).sd = .fin 1 := by
    simp only [calcStats, List.foldl_cons, List.foldl_nil, List.length_cons, List.length_nil]
    norm_num [jsAdd, jsSub, jsMul, jsDiv, jsSqrt]
  exact ⟨h.1, (h.2 havg).2 1 one_pos hsd⟩

end NelsonQC
